import Mathlib

/-!
Verification of the providence "match-subclasses" analysis pipeline.

The core pipeline (module resolution, export extraction, export index with
alias resolution, inheritance extraction, subclass matching, query
orchestration with a cache layer) is modelled here, and the concrete
reference/target project fixture from the test suite is embedded so that
the pipeline can be evaluated on it.
-/

namespace Providence

/-! ## String helpers (path handling over character lists) -/

/-- Split a string into path segments at the forward-slash character. -/
def splitSegsAux : List Char → List (List Char)
  | [] => [[]]
  | c :: rest =>
    match splitSegsAux rest with
    | [] => [[]]
    | seg :: segs => if c = '/' then [] :: seg :: segs else (c :: seg) :: segs

/-- Path segments of a path string. -/
def splitPath (s : String) : List String :=
  (splitSegsAux s.data).map (fun l => ⟨l⟩)

/-- Normalize path segments: drop single-dot segments, let a double-dot
segment pop the previously accumulated segment. -/
def normalizeSegs : List String → List String → List String
  | acc, [] => acc.reverse
  | acc, "." :: rest => normalizeSegs acc rest
  | acc, ".." :: rest => normalizeSegs (acc.drop 1) rest
  | acc, s :: rest => normalizeSegs (s :: acc) rest

/-- Join path segments with forward slashes. -/
def joinSegs : List String → String
  | [] => ""
  | [s] => s
  | s :: rest => s ++ "/" ++ joinSegs rest

/-- Resolve a relative import specifier written inside the file
`fromFile` to a project-relative path beginning with "./". -/
def joinRelative (fromFile specifierStr : String) : String :=
  let base := (splitPath fromFile).dropLast
  "./" ++ joinSegs (normalizeSegs [] (base ++ splitPath specifierStr))

/-- Whether the first string starts with the second (structural, over the
underlying character lists). -/
def strStartsWith (s pre : String) : Bool :=
  pre.data.isPrefixOf s.data

/-- Whether a string is a legal identifier: nonempty, first character a
letter, underscore or dollar sign, remaining characters alphanumeric,
underscore or dollar sign. -/
def isLegalIdentName (s : String) : Bool :=
  match s.data with
  | [] => false
  | c :: rest =>
    (c.isAlpha || c = '_' || c = '$') &&
      rest.all (fun d => d.isAlphanum || d = '_' || d = '$')

/-! ## Data model

Modelled from the spec: the underlying language parser is an external
collaborator that yields declarations, export clauses, call expressions and
class heritage clauses; source files are therefore embedded as lists of
parsed declarations rather than raw text. -/

/-- Shape of the value bound by an export declaration, as far as mixin
classification needs it: a class-like value, a function value with its
parameter list and (when its sole return expression is a class expression)
the identifier in that class expression's heritage clause, or anything
else. -/
inductive ExportedValueShape where
  | classLike
  | fnShape (params : List String) (soleReturnClassHeritage : Option String)
  | otherShape
deriving DecidableEq, Repr

/-- Mixin classification. Modelled from the spec: a single-parameter
function whose sole return expression is a class expression whose heritage
clause is exactly that parameter. Anything else is conservatively not a
mixin. -/
def isMixinShaped : ExportedValueShape → Bool
  | .fnShape [p] (some h) => h = p
  | _ => false

/-- How an import clause binds a local name. -/
inductive ImportKind where
  | named (importedName : String)
  | defaultImport
deriving DecidableEq, Repr

/-- One heritage expression: a bare identifier or a call chain wrapping an
inner heritage expression. -/
inductive HeritageExpression where
  | identRef (name : String)
  | call (fn : String) (arg : HeritageExpression)
deriving DecidableEq, Repr

/-- A parsed top-level declaration of a source file. -/
inductive Declaration where
  | importDecl (localName : String) (kind : ImportKind) (specifierStr : String)
  | namedExport (name : String) (shape : ExportedValueShape)
  | defaultExport (shape : ExportedValueShape)
  | reExport (exportedAs : String) (originalName : String) (fromSpecifier : String)
  | classDecl (name : String) (heritage : Option HeritageExpression)
      (overriddenMembers : List String)
deriving DecidableEq, Repr

/-- A source file: its project-relative path and its parsed declarations. -/
structure SourceFile where
  relativePath : String
  decls : List Declaration
deriving DecidableEq, Repr

/-- A project: root path, declared package name, ordered file list, and the
declared entry file used for bare-specifier resolution. -/
structure Project where
  path : String
  name : String
  files : List SourceFile
  entryFile : String
deriving DecidableEq, Repr

/-- A concrete export discovered in a reference project. -/
structure ExportSpecifier where
  name : String
  filePath : String
  project : String
  mixinFlag : Bool
deriving DecidableEq, Repr

/-- The globally unique identity string of an export specifier. -/
def ExportSpecifier.id (s : ExportSpecifier) : String :=
  s.name ++ "::" ++ s.filePath ++ "::" ++ s.project

/-- The sentinel name used for default exports. -/
def defaultSentinel : String := "[default]"

/-- An alias edge created by a re-export declaration: the name
`exportedAs` at (`filePath`, `project`) stands for `targetName` at
(`targetFilePath`, `targetProject`). -/
structure AliasEdge where
  exportedAs : String
  filePath : String
  project : String
  targetName : String
  targetFilePath : String
  targetProject : String
deriving DecidableEq, Repr

/-! ## ExportExtractor

Modelled from the spec: named export declarations yield one specifier per
exported name, default export declarations yield one specifier under the
sentinel token, re-export declarations yield no physical export but an
alias edge. -/

/-- The export specifier produced by one declaration, if any. -/
def exportOfDecl (projectName filePath : String) : Declaration → Option ExportSpecifier
  | .namedExport n shape => some ⟨n, filePath, projectName, isMixinShaped shape⟩
  | .defaultExport _ => some ⟨defaultSentinel, filePath, projectName, false⟩
  | _ => none

/-- All physical export specifiers of one file. -/
def extractExports (projectName : String) (f : SourceFile) : List ExportSpecifier :=
  f.decls.filterMap (exportOfDecl projectName f.relativePath)

/-- The alias edge produced by one declaration, if any. -/
def aliasOfDecl (projectName filePath : String) : Declaration → Option AliasEdge
  | .reExport asName origName fromSpec =>
      some ⟨asName, filePath, projectName, origName, joinRelative filePath fromSpec, projectName⟩
  | _ => none

/-- All alias edges of one file. -/
def extractAliases (projectName : String) (f : SourceFile) : List AliasEdge :=
  f.decls.filterMap (aliasOfDecl projectName f.relativePath)

/-! ## ExportIndex -/

/-- Aggregated exports and alias edges of all reference projects. -/
structure ExportIndex where
  specifiers : List ExportSpecifier
  aliases : List AliasEdge
deriving DecidableEq, Repr

/-- Build the export index over all reference projects. -/
def buildExportIndex (refs : List Project) : ExportIndex :=
  { specifiers :=
      (refs.map (fun p => (p.files.map (extractExports p.name)).flatten)).flatten
    aliases :=
      (refs.map (fun p => (p.files.map (extractAliases p.name)).flatten)).flatten }

/-- Physical-export lookup by (name, file path, project). -/
def lookupExport (idx : ExportIndex) (n fp pj : String) : Option ExportSpecifier :=
  idx.specifiers.find? (fun s => s.name = n && s.filePath = fp && s.project = pj)

/-- Alias-edge lookup by (name, file path, project). -/
def lookupAlias (idx : ExportIndex) (n fp pj : String) : Option AliasEdge :=
  idx.aliases.find? (fun e => e.exportedAs = n && e.filePath = fp && e.project = pj)

/-- Fixed maximum alias-resolution depth (cycle guard). -/
def maxAliasDepth : Nat := 255

/-- Depth-bounded walk to the canonical export specifier: a physical
export resolves to itself; otherwise one alias edge is followed per unit
of fuel; a missing edge, a cycle or a depth overrun yields none. -/
def resolveToCanonical (idx : ExportIndex) : Nat → String → String → String → Option ExportSpecifier
  | 0, n, fp, pj => lookupExport idx n fp pj
  | Nat.succ fuelRest, n, fp, pj =>
    match lookupExport idx n fp pj with
    | some s => some s
    | none =>
      match lookupAlias idx n fp pj with
      | some e =>
          resolveToCanonical idx fuelRest e.targetName e.targetFilePath e.targetProject
      | none => none

/-- Alias resolution at the fixed maximum depth. -/
def resolveAlias (idx : ExportIndex) (n fp pj : String) : Option ExportSpecifier :=
  resolveToCanonical idx maxAliasDepth n fp pj

/-! ## ModuleResolver -/

/-- Outcome of resolving an import specifier against the known project
set. -/
inductive Resolution where
  | resolved (project : String) (filePath : String)
  | unresolved
deriving DecidableEq, Repr

/-- Longest-name candidate among the projects matching a specifier. -/
def pickLongestName (candidates : List Project) : Option Project :=
  candidates.foldl
    (fun best p =>
      match best with
      | none => some p
      | some q => if q.name.length < p.name.length then some p else some q)
    none

/-- Resolve an import specifier to a (project, file) pair. A bare
specifier equal to a known project name resolves to that project's entry
file; a subpath specifier resolves directly to that file; an unknown
package name resolves to unresolved, not an error. -/
def resolveSpecifier (projects : List Project) (specifierStr : String) : Resolution :=
  let candidates := projects.filter
    (fun p => specifierStr = p.name || strStartsWith specifierStr (p.name ++ "/"))
  match pickLongestName candidates with
  | none => .unresolved
  | some p =>
    if specifierStr = p.name then .resolved p.name p.entryFile
    else .resolved p.name ("./" ++ ⟨specifierStr.data.drop (p.name.length + 1)⟩)

/-! ## InheritanceExtractor and SubclassMatcher -/

/-- How the memberOverrides field of a match entry is materialized in the
emitted result object: absent, present with the undefined value, or
present with a list of overridden members. -/
inductive OverridesField where
  | absent
  | presentUndefined
  | overridesList (members : List String)
deriving DecidableEq, Repr

/-- The memberOverrides field value recorded for a class with the given
overridden members: a class with none gets the field set to the undefined
value (the key is still present on the emitted object). -/
def mkOverridesField : List String → OverridesField
  | [] => .presentUndefined
  | members => .overridesList members

/-- One occurrence of a target file's class extending a resolved export
specifier. -/
structure MatchEntry where
  identifier : String
  file : String
  memberOverrides : OverridesField
deriving DecidableEq, Repr

/-- The matches of one target project: the project name and its match
entries in file encounter order. -/
structure ProjectMatches where
  project : String
  files : List MatchEntry
deriving DecidableEq, Repr

/-- One item of an analyzer query result: a matched export specifier and
its matches grouped per target project. -/
structure QueryResultItem where
  exportSpecifier : ExportSpecifier
  matchesPerProject : List ProjectMatches
deriving DecidableEq, Repr

/-- The root identifier of a heritage expression (the innermost identifier
of the wrapping call chain). -/
def heritageRoot : HeritageExpression → String
  | .identRef n => n
  | .call _ arg => heritageRoot arg

/-- The import binding of a local name in a file, if any. -/
def findImportBinding (f : SourceFile) (localName : String) : Option (ImportKind × String) :=
  f.decls.findSome? fun d =>
    match d with
    | .importDecl ln kind specifierStr =>
        if ln = localName then some (kind, specifierStr) else none
    | _ => none

/-- Resolve a local identifier of a target file to a canonical export
specifier: look up its import binding, resolve the import's specifier
string to a (project, file) pair, then resolve the imported name through
the export index's alias edges. Yields none when any step is
unresolvable. -/
def resolveLocalIdent (refs : List Project) (idx : ExportIndex) (f : SourceFile)
    (localName : String) : Option ExportSpecifier :=
  match findImportBinding f localName with
  | none => none
  | some (kind, specifierStr) =>
    match resolveSpecifier refs specifierStr with
    | .unresolved => none
    | .resolved pj fp =>
      match kind with
      | .named importedName => resolveAlias idx importedName fp pj
      | .defaultImport => resolveAlias idx defaultSentinel fp pj

/-- Append one match entry into a project-grouped match list: an existing
group for the project gets the entry appended, otherwise a new group is
appended at the end. -/
def addToProject (mpp : List ProjectMatches) (pj : String) (entry : MatchEntry) :
    List ProjectMatches :=
  if mpp.any (fun g => g.project = pj) then
    mpp.map (fun g => if g.project = pj then { g with files := g.files ++ [entry] } else g)
  else
    mpp ++ [⟨pj, [entry]⟩]

/-- Append one match into the shared result list, keyed by export
specifier id: the first occurrence of an id establishes its item at the
end of the list, later matches for the same id append to that item's
matchesPerProject. -/
def addMatch (acc : List QueryResultItem) (s : ExportSpecifier) (targetProject : String)
    (entry : MatchEntry) : List QueryResultItem :=
  if acc.any (fun item => item.exportSpecifier.id = s.id) then
    acc.map (fun item =>
      if item.exportSpecifier.id = s.id then
        { item with matchesPerProject := addToProject item.matchesPerProject targetProject entry }
      else item)
  else
    acc ++ [⟨s, [⟨targetProject, [entry]⟩]⟩]

/-- Match all classes of one target file: for each class with a heritage
clause, resolve the root identifier (wrapper identifiers of the call chain
are transparent); a successful resolution appends a match entry recording
the subclass name and the target file path. -/
def matchFile (refs : List Project) (idx : ExportIndex) (targetProject : String)
    (f : SourceFile) (acc : List QueryResultItem) : List QueryResultItem :=
  f.decls.foldl
    (fun acc d =>
      match d with
      | .classDecl clsName (some h) members =>
        match resolveLocalIdent refs idx f (heritageRoot h) with
        | some s => addMatch acc s targetProject ⟨clsName, f.relativePath, mkOverridesField members⟩
        | none => acc
      | _ => acc)
    acc

/-- The matching phase: match every file of every target project in
order against a fixed export index, accumulating into the shared result
list. The export index is fully built before this phase starts. -/
def matchAllTargets (refs : List Project) (idx : ExportIndex) (targets : List Project) :
    List QueryResultItem :=
  targets.foldl
    (fun acc t => t.files.foldl (fun acc f => matchFile refs idx t.name f acc) acc)
    []

/-- Run the match-subclasses analysis: build the export index over the
reference projects, then run the matching phase over the target
projects. -/
def runMatchSubclasses (refs targets : List Project) : List QueryResultItem :=
  matchAllTargets refs (buildExportIndex refs) targets

/-! ## CacheLayer

Modelled from the spec: per-file extraction results are memoized keyed by
project, file path and a content fingerprint; a miss or fingerprint
mismatch triggers re-extraction and a cache update; a disabled cache is
bypassed entirely. The content fingerprint is embedded as the file's
parsed declarations (content identity). -/

/-- The extraction result of one file: its physical exports and alias
edges. -/
structure FileExtraction where
  exports : List ExportSpecifier
  aliasEdges : List AliasEdge
deriving DecidableEq, Repr

/-- Fresh (uncached) extraction of one file. -/
def extractFile (projectName : String) (f : SourceFile) : FileExtraction :=
  ⟨extractExports projectName f, extractAliases projectName f⟩

/-- One cache entry: key (project, file path, content fingerprint) and the
stored extraction result. -/
structure CacheEntry where
  project : String
  filePath : String
  fingerprint : List Declaration
  result : FileExtraction
deriving DecidableEq, Repr

/-- The cache layer: its stored entries. -/
structure CacheLayer where
  entries : List CacheEntry
deriving DecidableEq, Repr

/-- The empty cache. -/
def emptyCache : CacheLayer := ⟨[]⟩

/-- Cache lookup: an entry whose project, file path and fingerprint all
match, if any. -/
def cacheGet (c : CacheLayer) (pj fp : String) (fingerprint : List Declaration) :
    Option FileExtraction :=
  (c.entries.find? (fun e => e.project = pj && e.filePath = fp && e.fingerprint = fingerprint)).map
    (fun e => e.result)

/-- Cache update: store an extraction result under its key. -/
def cachePut (c : CacheLayer) (pj fp : String) (fingerprint : List Declaration)
    (r : FileExtraction) : CacheLayer :=
  ⟨c.entries ++ [⟨pj, fp, fingerprint, r⟩]⟩

/-- Extraction of one file through the cache layer: with the cache
disabled the cache is bypassed; otherwise a hit returns the stored result
and a miss extracts freshly and updates the cache. -/
def extractFileCached (cacheDisabled : Bool) (c : CacheLayer) (pj : String) (f : SourceFile) :
    FileExtraction × CacheLayer :=
  if cacheDisabled then (extractFile pj f, c)
  else
    match cacheGet c pj f.relativePath f.decls with
    | some r => (r, c)
    | none =>
        (extractFile pj f, cachePut c pj f.relativePath f.decls (extractFile pj f))

/-- One step of cached index building: extract one file through the cache
and append its exports and alias edges to the index under construction. -/
def indexFileStep (cacheDisabled : Bool) (pj : String) (acc : ExportIndex × CacheLayer)
    (f : SourceFile) : ExportIndex × CacheLayer :=
  let r := extractFileCached cacheDisabled acc.2 pj f
  (⟨acc.1.specifiers ++ r.1.exports, acc.1.aliases ++ r.1.aliasEdges⟩, r.2)

/-- Cached index building over one project's files. -/
def indexProjectStep (cacheDisabled : Bool) (acc : ExportIndex × CacheLayer) (p : Project) :
    ExportIndex × CacheLayer :=
  p.files.foldl (indexFileStep cacheDisabled p.name) acc

/-- Build the export index over all reference projects, extracting each
file through the cache layer and threading the cache state. -/
def buildExportIndexCached (cacheDisabled : Bool) (c : CacheLayer) (refs : List Project) :
    ExportIndex × CacheLayer :=
  refs.foldl (indexProjectStep cacheDisabled) (⟨[], []⟩, c)

/-- Run the match-subclasses analysis with the cache layer: build the
export index through the cache, then run the matching phase; the final
cache state is returned alongside the result. -/
def runMatchSubclassesCached (cacheDisabled : Bool) (c : CacheLayer) (refs targets : List Project) :
    List QueryResultItem × CacheLayer :=
  (matchAllTargets refs (buildExportIndexCached cacheDisabled c refs).1 targets,
   (buildExportIndexCached cacheDisabled c refs).2)

/-- A coherent cache: every stored entry equals the fresh extraction of
the file its key fingerprints. The empty cache is trivially coherent, and
every cache state produced by the pipeline itself is coherent. -/
def Coherent (c : CacheLayer) : Prop :=
  ∀ e ∈ c.entries, e.result = extractFile e.project ⟨e.filePath, e.fingerprint⟩

/-! ## Alias-walk step relation (for the termination bound) -/

/-- One alias step from a (name, file path, project) key: defined only
when the key is not a physical export and an alias edge leaves it; the
step follows that edge. -/
def aliasStep (idx : ExportIndex) (k : String × String × String) :
    Option (String × String × String) :=
  match lookupExport idx k.1 k.2.1 k.2.2 with
  | some _ => none
  | none =>
    (lookupAlias idx k.1 k.2.1 k.2.2).map
      (fun e => (e.targetName, e.targetFilePath, e.targetProject))

/-- The key reached after exactly j alias steps, if the walk survives that
long. -/
def aliasWalk (idx : ExportIndex) : Nat → String × String × String →
    Option (String × String × String)
  | 0, k => some k
  | j + 1, k =>
    match aliasStep idx k with
    | none => none
    | some k' => aliasWalk idx j k'

/-! ## Concrete fixture (from the match-subclasses test suite)

The reference project "exporting-ref-project" and the target project
"importing-target-project", with their files embedded as parsed
declarations. -/

/-- File ./ref-src/core.js of the reference project: exports the named
class RefClass (extending HTMLElement) and a default class OtherClass. -/
def refCoreFile : SourceFile :=
  { relativePath := "./ref-src/core.js"
    decls :=
      [ .namedExport "RefClass" .classLike
      , .defaultExport .classLike ] }

/-- File ./index.js of the reference project: re-exports RefClass as
RefRenamedClass, re-exports the default import of ./ref-src/core.js as its
own default export, and exports the mixin-shaped function Mixin. -/
def refIndexFile : SourceFile :=
  { relativePath := "./index.js"
    decls :=
      [ .reExport "RefRenamedClass" "RefClass" "./ref-src/core.js"
      , .importDecl "refConstImported" .defaultImport "./ref-src/core.js"
      , .defaultExport .otherShape
      , .namedExport "Mixin" (.fnShape ["superclass"] (some "superclass")) ] }

/-- The reference project exporting-ref-project. -/
def referenceProject : Project :=
  { path := "/importing/target/project/node_modules/exporting-ref-project"
    name := "exporting-ref-project"
    files := [refCoreFile, refIndexFile]
    entryFile := "./index.js" }

/-- File ./target-src/indirect-imports.js of the target project: imports
RefRenamedClass and the default export through the bare package specifier
and declares ExtendRefRenamedClass extending RefRenamedClass. -/
def targetIndirectFile : SourceFile :=
  { relativePath := "./target-src/indirect-imports.js"
    decls :=
      [ .importDecl "RefRenamedClass" (.named "RefRenamedClass") "exporting-ref-project"
      , .importDecl "defaultExport" .defaultImport "exporting-ref-project"
      , .classDecl "ExtendRefRenamedClass" (some (.identRef "RefRenamedClass")) [] ] }

/-- File ./target-src/direct-imports.js of the target project: a direct
named subpath import of RefClass, a default import and the named import
Mixin through the bare specifier, a named import ForeignMixin from the
unconfigured package unknow-project, and three class declarations. -/
def targetDirectFile : SourceFile :=
  { relativePath := "./target-src/direct-imports.js"
    decls :=
      [ .importDecl "RefClass" (.named "RefClass") "exporting-ref-project/ref-src/core.js"
      , .importDecl "RefDefault" .defaultImport "exporting-ref-project"
      , .importDecl "Mixin" (.named "Mixin") "exporting-ref-project"
      , .importDecl "ForeignMixin" (.named "ForeignMixin") "unknow-project"
      , .classDecl "ExtendRefClass" (some (.identRef "RefClass")) []
      , .classDecl "ExtendRefDefault" (some (.identRef "RefDefault")) []
      , .classDecl "ExtendRefClassWithMixin"
          (some (.call "ForeignMixin" (.call "Mixin" (.identRef "RefClass")))) [] ] }

/-- The target project importing-target-project. -/
def searchTargetProject : Project :=
  { path := "/importing/target/project"
    name := "importing-target-project"
    files := [targetIndirectFile, targetDirectFile]
    entryFile := "./index.js" }

/-- The reference project set of the fixture run. -/
def fixtureRefs : List Project := [referenceProject]

/-- The target project set of the fixture run. -/
def fixtureTargets : List Project := [searchTargetProject]

/-- The export index built over the fixture's reference projects. -/
def fixtureIndex : ExportIndex := buildExportIndex fixtureRefs

/-- The analyzer query result of the fixture run. -/
def fixtureRun : List QueryResultItem := runMatchSubclasses fixtureRefs fixtureTargets

/-! ## Derived notions used by the statements -/

/-- The (name, filePath, project) identity key of an export specifier. -/
def specKey (s : ExportSpecifier) : String × String × String :=
  (s.name, s.filePath, s.project)

/-- Encoding of an identity key as an id string. -/
def encodeKey (k : String × String × String) : String :=
  k.1 ++ "::" ++ k.2.1 ++ "::" ++ k.2.2

/-- Provenance of one match entry: it records the name of a class declared
with an extends clause in a file of one of the target projects, that
file's relative path, and the memberOverrides field materialized from that
class's overridden members. -/
def EntryProvenance (targets : List Project) (e : MatchEntry) : Prop :=
  ∃ t ∈ targets, ∃ f ∈ t.files, e.file = f.relativePath ∧
    ∃ her mem, Declaration.classDecl e.identifier (some her) mem ∈ f.decls ∧
      e.memberOverrides = mkOverridesField mem

/-- Accumulator invariant: every entry of every item has provenance in the
target projects. -/
def RunInv (targets : List Project) (acc : List QueryResultItem) : Prop :=
  ∀ item ∈ acc, ∀ g ∈ item.matchesPerProject, ∀ e ∈ g.files, EntryProvenance targets e

/-- Shape invariant of the shared result list: item ids are pairwise
distinct (the list is keyed by export specifier id) and within every item
the per-project groups carry pairwise distinct project names (matches are
grouped by target project). -/
def ResultShapeInv (acc : List QueryResultItem) : Prop :=
  (acc.map (fun item => item.exportSpecifier.id)).Nodup ∧
  ∀ item ∈ acc, (item.matchesPerProject.map (fun g => g.project)).Nodup

/-- The analyzer query result expected for the fixture run: the canonical
RefClass specifier with its three matches in file encounter order, then
the entry-file default export with its one match. -/
def fixtureExpectedRun : List QueryResultItem :=
  [ { exportSpecifier :=
        ⟨"RefClass", "./ref-src/core.js", "exporting-ref-project", false⟩
      matchesPerProject :=
        [ ⟨"importing-target-project",
            [ ⟨"ExtendRefRenamedClass", "./target-src/indirect-imports.js", .presentUndefined⟩
            , ⟨"ExtendRefClass", "./target-src/direct-imports.js", .presentUndefined⟩
            , ⟨"ExtendRefClassWithMixin", "./target-src/direct-imports.js", .presentUndefined⟩
            ] ⟩ ] }
  , { exportSpecifier :=
        ⟨"[default]", "./index.js", "exporting-ref-project", false⟩
      matchesPerProject :=
        [ ⟨"importing-target-project",
            [ ⟨"ExtendRefDefault", "./target-src/direct-imports.js", .presentUndefined⟩ ] ⟩ ] } ]

/-- An export index holding only a two-cycle of alias edges and no
physical export: the name A at ./a.js re-exports B from ./b.js and vice
versa. -/
def cyclicAliasIndex : ExportIndex :=
  { specifiers := []
    aliases :=
      [ ⟨"A", "./a.js", "p", "B", "./b.js", "p"⟩
      , ⟨"B", "./b.js", "p", "A", "./a.js", "p"⟩ ] }

/-! ## Helper lemmas -/

/-- A fold preserves an invariant when every step does. -/
lemma foldl_inv {α β : Type*} {P : β → Prop} {Q : α → Prop} {step : β → α → β} :
    ∀ (l : List α), (∀ a ∈ l, Q a) → (∀ b a, P b → Q a → P (step b a)) →
      ∀ b, P b → P (l.foldl step b) := by
  intro l
  induction l with
  | nil => intro _ _ b hb; simpa using hb
  | cons a l ih =>
      intro hl hstep b hb
      simp only [List.foldl_cons]
      exact ih (fun x hx => hl x (List.mem_cons_of_mem a hx)) hstep (step b a)
        (hstep b a hb (hl a (List.mem_cons_self a l)))

/-- Appending a match entry either leaves the group project list unchanged
(when the project already has a group) or appends the project name at the
end. -/
lemma addToProject_proj (mpp : List ProjectMatches) (pj : String) (e : MatchEntry) :
    (addToProject mpp pj e).map (fun g => g.project) =
      if mpp.any (fun g => g.project = pj) then mpp.map (fun g => g.project)
      else mpp.map (fun g => g.project) ++ [pj] := by
  unfold addToProject
  by_cases hc : (mpp.any fun g => g.project = pj) = true
  · rw [if_pos hc, if_pos hc, List.map_map]
    refine List.map_congr_left fun g hg => ?_
    by_cases hgp : g.project = pj <;> simp [hgp]
  · rw [if_neg hc, if_neg hc, List.map_append]
    rfl

/-- Appending a match either leaves the result id list unchanged (when the
id already has an item) or appends the id at the end. -/
lemma addMatch_ids (acc : List QueryResultItem) (s : ExportSpecifier) (pj : String)
    (e : MatchEntry) :
    (addMatch acc s pj e).map (fun item => item.exportSpecifier.id) =
      if acc.any (fun item => item.exportSpecifier.id = s.id) then
        acc.map (fun item => item.exportSpecifier.id)
      else acc.map (fun item => item.exportSpecifier.id) ++ [s.id] := by
  unfold addMatch
  by_cases hc : (acc.any fun item => item.exportSpecifier.id = s.id) = true
  · rw [if_pos hc, if_pos hc, List.map_map]
    refine List.map_congr_left fun item hitem => ?_
    by_cases hid : item.exportSpecifier.id = s.id <;> simp [hid]
  · rw [if_neg hc, if_neg hc, List.map_append]
    rfl

/-- Every entry of a group of `addToProject` is an old entry or the
appended one. -/
lemma mem_files_addToProject {mpp : List ProjectMatches} {pj : String} {entry : MatchEntry}
    {g : ProjectMatches} {e : MatchEntry}
    (hg : g ∈ addToProject mpp pj entry) (he : e ∈ g.files) :
    (∃ g' ∈ mpp, e ∈ g'.files) ∨ e = entry := by
  unfold addToProject at hg
  by_cases hc : (mpp.any fun g => g.project = pj) = true
  · rw [if_pos hc] at hg
    obtain ⟨g', hg', rfl⟩ := List.mem_map.1 hg
    by_cases hgp : g'.project = pj
    · rw [if_pos hgp] at he
      rcases List.mem_append.1 he with h | h
      · exact Or.inl ⟨g', hg', h⟩
      · exact Or.inr (List.mem_singleton.1 h)
    · rw [if_neg hgp] at he
      exact Or.inl ⟨g', hg', he⟩
  · rw [if_neg hc] at hg
    rcases List.mem_append.1 hg with h | h
    · exact Or.inl ⟨g, h, he⟩
    · rw [List.mem_singleton] at h
      subst h
      exact Or.inr (List.mem_singleton.1 he)

/-- Every entry of an item of `addMatch` is an old entry or the appended
one. -/
lemma mem_entry_addMatch {acc : List QueryResultItem} {s : ExportSpecifier} {pj : String}
    {entry : MatchEntry} {item : QueryResultItem} {g : ProjectMatches} {e : MatchEntry}
    (hitem : item ∈ addMatch acc s pj entry) (hg : g ∈ item.matchesPerProject)
    (he : e ∈ g.files) :
    (∃ item' ∈ acc, ∃ g' ∈ item'.matchesPerProject, e ∈ g'.files) ∨ e = entry := by
  unfold addMatch at hitem
  by_cases hc : (acc.any fun item => item.exportSpecifier.id = s.id) = true
  · rw [if_pos hc] at hitem
    obtain ⟨item', hi', rfl⟩ := List.mem_map.1 hitem
    by_cases heq : item'.exportSpecifier.id = s.id
    · rw [if_pos heq] at hg
      rcases mem_files_addToProject hg he with ⟨g', hg', he'⟩ | h
      · exact Or.inl ⟨item', hi', g', hg', he'⟩
      · exact Or.inr h
    · rw [if_neg heq] at hg
      exact Or.inl ⟨item', hi', g, hg, he⟩
  · rw [if_neg hc] at hitem
    rcases List.mem_append.1 hitem with h | h
    · exact Or.inl ⟨item, h, g, hg, he⟩
    · rw [List.mem_singleton] at h
      subst h
      have hg' := List.mem_singleton.1 hg
      subst hg'
      exact Or.inr (List.mem_singleton.1 he)

/-- `addToProject` preserves distinctness of the group project names. -/
lemma nodup_proj_addToProject {mpp : List ProjectMatches} {pj : String} {e : MatchEntry}
    (h : (mpp.map (fun g => g.project)).Nodup) :
    ((addToProject mpp pj e).map (fun g => g.project)).Nodup := by
  rw [addToProject_proj]
  by_cases hc : (mpp.any fun g => g.project = pj) = true
  · rwa [if_pos hc]
  · rw [if_neg hc, List.nodup_append]
    refine ⟨h, List.nodup_singleton pj, ?_⟩
    intro x hx hx'
    rw [List.mem_singleton] at hx'
    subst hx'
    obtain ⟨g, hg, hgp⟩ := List.mem_map.1 hx
    have hall := List.any_eq_false.1 (Bool.of_not_eq_true hc) g hg
    simp only [decide_eq_true_eq] at hall
    exact hall hgp

/-- `addMatch` preserves distinctness of the item ids. -/
lemma nodup_ids_addMatch {acc : List QueryResultItem} {s : ExportSpecifier} {pj : String}
    {e : MatchEntry}
    (h : (acc.map (fun item => item.exportSpecifier.id)).Nodup) :
    ((addMatch acc s pj e).map (fun item => item.exportSpecifier.id)).Nodup := by
  rw [addMatch_ids]
  by_cases hc : (acc.any fun item => item.exportSpecifier.id = s.id) = true
  · rwa [if_pos hc]
  · rw [if_neg hc, List.nodup_append]
    refine ⟨h, List.nodup_singleton _, ?_⟩
    intro x hx hx'
    rw [List.mem_singleton] at hx'
    subst hx'
    obtain ⟨item, hitem, hid⟩ := List.mem_map.1 hx
    have hall := List.any_eq_false.1 (Bool.of_not_eq_true hc) item hitem
    simp only [decide_eq_true_eq] at hall
    exact hall hid

/-- `addMatch` preserves distinctness of group project names inside every
item. -/
lemma nodup_groups_addMatch {acc : List QueryResultItem} {s : ExportSpecifier} {pj : String}
    {e : MatchEntry}
    (h : ∀ item ∈ acc, (item.matchesPerProject.map (fun g => g.project)).Nodup) :
    ∀ item ∈ addMatch acc s pj e,
      (item.matchesPerProject.map (fun g => g.project)).Nodup := by
  intro item hitem
  unfold addMatch at hitem
  by_cases hc : (acc.any fun item => item.exportSpecifier.id = s.id) = true
  · rw [if_pos hc] at hitem
    obtain ⟨item', hi', rfl⟩ := List.mem_map.1 hitem
    by_cases heq : item'.exportSpecifier.id = s.id
    · rw [if_pos heq]
      exact nodup_proj_addToProject (h item' hi')
    · rw [if_neg heq]
      exact h item' hi'
  · rw [if_neg hc] at hitem
    rcases List.mem_append.1 hitem with h' | h'
    · exact h item h'
    · rw [List.mem_singleton] at h'
      subst h'
      simp

/-- `addMatch` preserves the result shape invariant. -/
lemma shapeInv_addMatch {acc : List QueryResultItem} {s : ExportSpecifier} {pj : String}
    {e : MatchEntry} (h : ResultShapeInv acc) : ResultShapeInv (addMatch acc s pj e) :=
  ⟨nodup_ids_addMatch h.1, nodup_groups_addMatch h.2⟩

/-- Matching one file preserves the result shape invariant. -/
lemma shapeInv_matchFile {refs : List Project} {idx : ExportIndex} {tn : String}
    {f : SourceFile} {acc : List QueryResultItem}
    (h : ResultShapeInv acc) : ResultShapeInv (matchFile refs idx tn f acc) := by
  unfold matchFile
  refine foldl_inv (P := ResultShapeInv) (Q := fun _ => True) f.decls (fun _ _ => trivial)
    ?_ acc h
  intro b d hb _
  cases d with
  | importDecl a k sp => exact hb
  | namedExport n sh => exact hb
  | defaultExport sh => exact hb
  | reExport a o fr => exact hb
  | classDecl cls her mem =>
      cases her with
      | none => exact hb
      | some h0 =>
          dsimp only
          cases hres : resolveLocalIdent refs idx f (heritageRoot h0) with
          | none => exact hb
          | some s => exact shapeInv_addMatch hb

/-- The full run satisfies the result shape invariant. -/
lemma shapeInv_run (refs targets : List Project) :
    ResultShapeInv (runMatchSubclasses refs targets) := by
  unfold runMatchSubclasses matchAllTargets
  refine foldl_inv (P := ResultShapeInv) (Q := fun _ => True) targets (fun _ _ => trivial)
    ?_ [] ⟨by simp, by simp⟩
  intro acc t hacc _
  refine foldl_inv (P := ResultShapeInv) (Q := fun _ => True) t.files (fun _ _ => trivial)
    ?_ acc hacc
  intro acc' f hacc' _
  exact shapeInv_matchFile hacc'

/-- Matching one file of a target project preserves the provenance
invariant. -/
lemma runInv_matchFile {refs : List Project} {idx : ExportIndex} {targets : List Project}
    {t : Project} {f : SourceFile} (ht : t ∈ targets) (hf : f ∈ t.files) (tn : String)
    {acc : List QueryResultItem} (hacc : RunInv targets acc) :
    RunInv targets (matchFile refs idx tn f acc) := by
  unfold matchFile
  refine foldl_inv (P := RunInv targets) (Q := fun d => d ∈ f.decls) f.decls (fun d hd => hd)
    ?_ acc hacc
  intro b d hb hd
  cases d with
  | importDecl a k sp => exact hb
  | namedExport n sh => exact hb
  | defaultExport sh => exact hb
  | reExport a o fr => exact hb
  | classDecl cls her mem =>
      cases her with
      | none => exact hb
      | some h0 =>
          dsimp only
          cases hres : resolveLocalIdent refs idx f (heritageRoot h0) with
          | none => exact hb
          | some s =>
              intro item hitem g hg e he
              rcases mem_entry_addMatch hitem hg he with ⟨item', hi', g', hg', he'⟩ | h'
              · exact hb item' hi' g' hg' e he'
              · subst h'
                exact ⟨t, ht, f, hf, rfl, h0, mem, hd, rfl⟩

/-- Every entry of the full run has provenance in the target projects. -/
lemma runInv_run (refs targets : List Project) :
    RunInv targets (runMatchSubclasses refs targets) := by
  unfold runMatchSubclasses matchAllTargets
  refine foldl_inv (P := RunInv targets) (Q := fun t => t ∈ targets) targets (fun t ht => ht)
    ?_ [] (by intro item h; simp at h)
  intro acc t hacc ht
  refine foldl_inv (P := RunInv targets) (Q := fun f => f ∈ t.files) t.files (fun f hf => hf)
    ?_ acc hacc
  intro acc' f hacc' hf
  exact runInv_matchFile ht hf t.name hacc'

/-! ## Cache layer lemmas -/

/-- The empty cache is coherent. -/
lemma coherent_empty : Coherent emptyCache := by
  intro e he
  simp [emptyCache] at he

/-- With the cache disabled, cached extraction is fresh extraction and the
cache state is untouched. -/
lemma extractFileCached_disabled (c : CacheLayer) (pj : String) (f : SourceFile) :
    extractFileCached true c pj f = (extractFile pj f, c) := rfl

/-- Unfolding equation of enabled cached extraction. -/
lemma extractFileCached_enabled_eq (c : CacheLayer) (pj : String) (f : SourceFile) :
    extractFileCached false c pj f =
      match cacheGet c pj f.relativePath f.decls with
      | some r => (r, c)
      | none => (extractFile pj f, cachePut c pj f.relativePath f.decls (extractFile pj f)) :=
  rfl

/-- With a coherent cache, cached extraction returns exactly the fresh
extraction (a fingerprint hit cannot be stale) and preserves coherence. -/
lemma extractFileCached_coherent {c : CacheLayer} (h : Coherent c) (pj : String)
    (f : SourceFile) :
    (extractFileCached false c pj f).1 = extractFile pj f ∧
      Coherent (extractFileCached false c pj f).2 := by
  rw [extractFileCached_enabled_eq]
  cases hget : cacheGet c pj f.relativePath f.decls with
  | none =>
      refine ⟨rfl, ?_⟩
      intro e he
      unfold cachePut at he
      rcases List.mem_append.1 he with h' | h'
      · exact h e h'
      · rw [List.mem_singleton] at h'
        subst h'
        rfl
  | some r =>
      refine ⟨?_, h⟩
      unfold cacheGet at hget
      obtain ⟨en, hfind, hres⟩ := Option.map_eq_some'.1 hget
      have hmem := List.mem_of_find?_eq_some hfind
      have hpred := List.find?_some hfind
      simp only [Bool.and_eq_true, decide_eq_true_eq] at hpred
      obtain ⟨⟨hp1, hp2⟩, hp3⟩ := hpred
      have hco := h en hmem
      rw [hp1, hp2, hp3] at hco
      dsimp only
      rw [← hres, hco]

/-- Cached index building over a file list yields the fresh per-file
extractions appended to the accumulated index, and keeps the cache
coherent (or stays disabled). -/
lemma indexFileStep_fold (disabled : Bool) (pj : String) :
    ∀ (files : List SourceFile) (acc : ExportIndex × CacheLayer),
      (disabled = true ∨ Coherent acc.2) →
      (files.foldl (indexFileStep disabled pj) acc).1 =
        ⟨acc.1.specifiers ++ (files.map (fun f => extractExports pj f)).flatten,
         acc.1.aliases ++ (files.map (fun f => extractAliases pj f)).flatten⟩ ∧
      (disabled = true ∨ Coherent (files.foldl (indexFileStep disabled pj) acc).2) := by
  intro files
  induction files with
  | nil => intro acc h; exact ⟨by simp, h⟩
  | cons f fs ih =>
      intro acc h
      have hstep1 : (extractFileCached disabled acc.2 pj f).1 = extractFile pj f := by
        cases disabled with
        | true => rfl
        | false => exact (extractFileCached_coherent (h.resolve_left (by simp)) pj f).1
      have hstep2 : disabled = true ∨ Coherent (extractFileCached disabled acc.2 pj f).2 := by
        cases disabled with
        | true => exact Or.inl rfl
        | false =>
            exact Or.inr (extractFileCached_coherent (h.resolve_left (by simp)) pj f).2
      simp only [List.foldl_cons]
      obtain ⟨g1, g2⟩ := ih (indexFileStep disabled pj acc f) hstep2
      refine ⟨?_, g2⟩
      rw [g1]
      have hstep : (indexFileStep disabled pj acc f).1 =
          ⟨acc.1.specifiers ++ extractExports pj f, acc.1.aliases ++ extractAliases pj f⟩ := by
        unfold indexFileStep
        dsimp only
        rw [hstep1]
        rfl
      rw [hstep]
      simp [List.append_assoc]

/-- Cached index building over the reference projects yields the fresh
per-project extractions appended to the accumulated index. -/
lemma buildIndexCached_fold (disabled : Bool) :
    ∀ (refs : List Project) (acc : ExportIndex × CacheLayer),
      (disabled = true ∨ Coherent acc.2) →
      (refs.foldl (indexProjectStep disabled) acc).1 =
        ⟨acc.1.specifiers ++
          (refs.map (fun p => (p.files.map (extractExports p.name)).flatten)).flatten,
         acc.1.aliases ++
          (refs.map (fun p => (p.files.map (extractAliases p.name)).flatten)).flatten⟩ ∧
      (disabled = true ∨ Coherent (refs.foldl (indexProjectStep disabled) acc).2) := by
  intro refs
  induction refs with
  | nil => intro acc h; exact ⟨by simp, h⟩
  | cons p ps ih =>
      intro acc h
      simp only [List.foldl_cons]
      obtain ⟨h1, h2⟩ := indexFileStep_fold disabled p.name p.files acc h
      obtain ⟨g1, g2⟩ := ih (indexProjectStep disabled acc p) h2
      refine ⟨?_, g2⟩
      rw [g1]
      have hstep : (indexProjectStep disabled acc p).1 =
          ⟨acc.1.specifiers ++ ((p.files.map (extractExports p.name)).flatten),
           acc.1.aliases ++ ((p.files.map (extractAliases p.name)).flatten)⟩ := by
        unfold indexProjectStep
        rw [h1]
      rw [hstep]
      simp [List.append_assoc]

/-- The cached pipeline builds exactly the fresh export index, and keeps
the cache coherent. -/
lemma buildExportIndexCached_correct (disabled : Bool) (c : CacheLayer) (refs : List Project)
    (h : disabled = true ∨ Coherent c) :
    (buildExportIndexCached disabled c refs).1 = buildExportIndex refs ∧
    (disabled = true ∨ Coherent (buildExportIndexCached disabled c refs).2) := by
  unfold buildExportIndexCached
  obtain ⟨h1, h2⟩ := buildIndexCached_fold disabled refs (⟨[], []⟩, c) h
  refine ⟨?_, h2⟩
  rw [h1]
  simp [buildExportIndex]

/-- The cached run produces exactly the fresh run's output, whether the
cache is disabled or enabled over any coherent cache state, and the final
cache state is again coherent (or the cache stayed disabled). -/
lemma runCached_correct (disabled : Bool) (c : CacheLayer) (refs targets : List Project)
    (h : disabled = true ∨ Coherent c) :
    (runMatchSubclassesCached disabled c refs targets).1 = runMatchSubclasses refs targets ∧
    (disabled = true ∨ Coherent (runMatchSubclassesCached disabled c refs targets).2) := by
  obtain ⟨h1, h2⟩ := buildExportIndexCached_correct disabled c refs h
  unfold runMatchSubclassesCached
  constructor
  · dsimp only
    rw [h1]
    rfl
  · exact h2

/-! ## Alias resolution lemmas -/

/-- Unfolding equation of depth-bounded canonical resolution at depth
zero: only a physical export resolves. -/
lemma resolveToCanonical_zero (idx : ExportIndex) (n fp pj : String) :
    resolveToCanonical idx 0 n fp pj = lookupExport idx n fp pj := rfl

/-- Unfolding equation of depth-bounded canonical resolution at a
successor depth. -/
lemma resolveToCanonical_succ (idx : ExportIndex) (fuel : Nat) (n fp pj : String) :
    resolveToCanonical idx (fuel + 1) n fp pj =
      match lookupExport idx n fp pj with
      | some s => some s
      | none =>
        match lookupAlias idx n fp pj with
        | some e =>
            resolveToCanonical idx fuel e.targetName e.targetFilePath e.targetProject
        | none => none := rfl

/-- If no physical export is reached within the given number of alias
steps, depth-bounded resolution yields none. -/
lemma resolveToCanonical_not_physical (idx : ExportIndex) :
    ∀ (fuel : Nat) (k : String × String × String),
      (∀ j, j ≤ fuel → ((aliasWalk idx j k).all
          fun k' => (lookupExport idx k'.1 k'.2.1 k'.2.2).isNone) = true) →
      resolveToCanonical idx fuel k.1 k.2.1 k.2.2 = none := by
  intro fuel
  induction fuel with
  | zero =>
      intro k h
      have h0 : (lookupExport idx k.1 k.2.1 k.2.2).isNone = true := h 0 (Nat.le_refl 0)
      rw [Option.isNone_iff_eq_none] at h0
      rw [resolveToCanonical_zero, h0]
  | succ fuel ih =>
      intro k h
      have h0 : (lookupExport idx k.1 k.2.1 k.2.2).isNone = true := h 0 (Nat.zero_le _)
      rw [Option.isNone_iff_eq_none] at h0
      rw [resolveToCanonical_succ, h0]
      cases halias : lookupAlias idx k.1 k.2.1 k.2.2 with
      | none => rfl
      | some e =>
          have hstep : aliasStep idx k = some (e.targetName, e.targetFilePath, e.targetProject) := by
            unfold aliasStep
            rw [h0, halias]
            rfl
          refine ih (e.targetName, e.targetFilePath, e.targetProject) ?_
          intro j hj
          have hw := h (j + 1) (Nat.succ_le_succ hj)
          rw [show aliasWalk idx (j + 1) k =
              aliasWalk idx j (e.targetName, e.targetFilePath, e.targetProject) from by
            rw [show aliasWalk idx (j + 1) k =
                (match aliasStep idx k with
                 | none => none
                 | some k' => aliasWalk idx j k') from rfl, hstep]] at hw
          exact hw

/-! ## Identity string injectivity -/

/-- Splitting at the first occurrence of a separator character absent from
both prefixes is unambiguous. -/
lemma sep_split {c : Char} :
    ∀ {a a' t t' : List Char}, c ∉ a → c ∉ a' → a ++ c :: t = a' ++ c :: t' →
      a = a' ∧ t = t' := by
  intro a
  induction a with
  | nil =>
      intro a' t t' _ ha' h
      cases a' with
      | nil =>
          simp only [List.nil_append, List.cons.injEq] at h
          exact ⟨rfl, h.2⟩
      | cons x xs =>
          simp only [List.nil_append, List.cons_append, List.cons.injEq] at h
          exact absurd (by rw [h.1]; exact List.mem_cons_self x xs) ha'
  | cons y ys ih =>
      intro a' t t' ha ha' h
      cases a' with
      | nil =>
          simp only [List.cons_append, List.nil_append, List.cons.injEq] at h
          exact absurd (by rw [← h.1]; exact List.mem_cons_self y ys) ha
      | cons x xs =>
          simp only [List.cons_append, List.cons.injEq] at h
          obtain ⟨rfl, h2⟩ := h
          have hy : c ∉ ys := fun hm => ha (List.mem_cons_of_mem _ hm)
          have hx : c ∉ xs := fun hm => ha' (List.mem_cons_of_mem _ hm)
          obtain ⟨h3, h4⟩ := ih hy hx h2
          exact ⟨by rw [h3], h4⟩

/-- The characters of an encoded identity key. -/
lemma encodeKey_data (k : String × String × String) :
    (encodeKey k).data =
      k.1.data ++ ':' :: ':' :: (k.2.1.data ++ ':' :: ':' :: k.2.2.data) := by
  obtain ⟨a, b, c⟩ := k
  have hsep : ("::" : String).data = [':', ':'] := rfl
  simp [encodeKey, String.data_append, hsep, List.append_assoc]

/-- The identity encoding is injective on colon-free keys. -/
lemma encodeKey_inj {k k' : String × String × String}
    (h1 : ':' ∉ k.1.data ∧ ':' ∉ k.2.1.data ∧ ':' ∉ k.2.2.data)
    (h2 : ':' ∉ k'.1.data ∧ ':' ∉ k'.2.1.data ∧ ':' ∉ k'.2.2.data)
    (h : encodeKey k = encodeKey k') : k = k' := by
  obtain ⟨a, b, c⟩ := k
  obtain ⟨a', b', c'⟩ := k'
  have hd := congrArg String.data h
  rw [encodeKey_data, encodeKey_data] at hd
  obtain ⟨e1, hd2⟩ := sep_split h1.1 h2.1 hd
  simp only [List.cons.injEq, true_and] at hd2
  obtain ⟨e2, hd3⟩ := sep_split h1.2.1 h2.2.1 hd2
  simp only [List.cons.injEq, true_and] at hd3
  simp only [Prod.mk.injEq]
  exact ⟨String.ext e1, String.ext e2, String.ext hd3⟩

/-- Every specifier of the export index comes from extracting some file of
some reference project. -/
lemma mem_specifiers_buildExportIndex {refs : List Project} {s : ExportSpecifier}
    (hs : s ∈ (buildExportIndex refs).specifiers) :
    ∃ p ∈ refs, ∃ f ∈ p.files, s ∈ extractExports p.name f := by
  simp only [buildExportIndex, List.mem_flatten, List.mem_map] at hs
  obtain ⟨l, hl, hs2⟩ := hs
  obtain ⟨p, hp, hpe⟩ := hl
  subst hpe
  simp only [List.mem_flatten, List.mem_map] at hs2
  obtain ⟨l2, ⟨f, hf, hfe⟩, hs3⟩ := hs2
  subst hfe
  exact ⟨p, hp, f, hf, hs3⟩

/-- An extracted specifier carries the extracted file's relative path and
the project's name. -/
lemma extractExports_fields {pn : String} {f : SourceFile} {s : ExportSpecifier}
    (hs : s ∈ extractExports pn f) : s.filePath = f.relativePath ∧ s.project = pn := by
  simp only [extractExports, List.mem_filterMap] at hs
  obtain ⟨d, _, hd⟩ := hs
  cases d with
  | importDecl a k sp => simp [exportOfDecl] at hd
  | reExport a o fr => simp [exportOfDecl] at hd
  | classDecl cls her mem => simp [exportOfDecl] at hd
  | namedExport n sh =>
      simp only [exportOfDecl, Option.some.injEq] at hd
      subst hd
      exact ⟨rfl, rfl⟩
  | defaultExport sh =>
      simp only [exportOfDecl, Option.some.injEq] at hd
      subst hd
      exact ⟨rfl, rfl⟩

/-! ## Claim theorems -/

/-- C1: in the fixture run, the match produced for the target file that
imports RefRenamedClass through the bare package specifier (the class
ExtendRefRenamedClass of ./target-src/indirect-imports.js) is keyed by the
canonical id RefClass::./ref-src/core.js::exporting-ref-project of the
originating definition; every match from that file is keyed by that
canonical id, and no result item is keyed by a new id under ./index.js. -/
theorem c1_reexport_transparency :
    (fixtureRun.any fun item =>
      item.exportSpecifier.id = "RefClass::./ref-src/core.js::exporting-ref-project" &&
      item.matchesPerProject.any fun g => g.files.any fun e =>
        e.identifier == "ExtendRefRenamedClass" &&
          e.file == "./target-src/indirect-imports.js") = true ∧
    (fixtureRun.all fun item =>
      item.matchesPerProject.all fun g => g.files.all fun e =>
        !(e.file == "./target-src/indirect-imports.js") ||
          (item.exportSpecifier.id ==
            "RefClass::./ref-src/core.js::exporting-ref-project")) = true ∧
    (fixtureRun.all fun item =>
      !(item.exportSpecifier.id ==
        "RefRenamedClass::./index.js::exporting-ref-project")) = true := by
  refine ⟨by decide, by decide, by decide⟩

/-- C2: in the fixture run, the class ExtendRefClassWithMixin declared as
extending ForeignMixin(Mixin(RefClass)) is matched against RefClass's
canonical id; no result item is keyed by Mixin's id, so the match is not
recorded against Mixin; Mixin::./index.js::exporting-ref-project still
appears in the export index as its own export entry; and the unresolvable
ForeignMixin package resolves to unresolved rather than failing. -/
theorem c2_mixin_transparent_wrapper :
    (fixtureRun.any fun item =>
      item.exportSpecifier.id = "RefClass::./ref-src/core.js::exporting-ref-project" &&
      item.matchesPerProject.any fun g => g.files.any fun e =>
        e.identifier == "ExtendRefClassWithMixin") = true ∧
    (fixtureRun.all fun item =>
      !(item.exportSpecifier.id == "Mixin::./index.js::exporting-ref-project")) = true ∧
    (fixtureIndex.specifiers.any fun s =>
      s.id = "Mixin::./index.js::exporting-ref-project" && s.mixinFlag) = true ∧
    resolveSpecifier fixtureRefs "unknow-project" = Resolution.unresolved := by
  refine ⟨by decide, by decide, by decide, by decide⟩

/-- C3: export specifier ids of one run are pairwise distinct whenever the
(name, file path, project) identity keys are (the id encoding is injective
on colon-free components), every id has the exact form
name::relativeFilePath::projectName with the file path beginning with ./
and free of backslashes, and a default export is extracted under the
literal sentinel name token. -/
theorem c3_export_ids_unique_and_formatted (refs : List Project)
    (hpath : ∀ p ∈ refs, ∀ f ∈ p.files,
      strStartsWith f.relativePath "./" = true ∧ '\\' ∉ f.relativePath.data)
    (hfree : ∀ s ∈ (buildExportIndex refs).specifiers,
      ':' ∉ s.name.data ∧ ':' ∉ s.filePath.data ∧ ':' ∉ s.project.data)
    (hkeys : ((buildExportIndex refs).specifiers.map specKey).Nodup) :
    ((buildExportIndex refs).specifiers.map ExportSpecifier.id).Nodup ∧
    (∀ s ∈ (buildExportIndex refs).specifiers,
      s.id = s.name ++ "::" ++ s.filePath ++ "::" ++ s.project ∧
      strStartsWith s.filePath "./" = true ∧ '\\' ∉ s.filePath.data) ∧
    (∀ pn fp sh, exportOfDecl pn fp (Declaration.defaultExport sh) =
      some ⟨defaultSentinel, fp, pn, false⟩) ∧
    defaultSentinel = "[default]" := by
  refine ⟨?_, ?_, fun pn fp sh => rfl, rfl⟩
  · have hmapeq : (buildExportIndex refs).specifiers.map ExportSpecifier.id =
        ((buildExportIndex refs).specifiers.map specKey).map encodeKey := by
      rw [List.map_map]
      rfl
    rw [hmapeq]
    refine List.Nodup.map_on ?_ hkeys
    intro x hx y hy hxy
    obtain ⟨sx, hsx, rfl⟩ := List.mem_map.1 hx
    obtain ⟨sy, hsy, rfl⟩ := List.mem_map.1 hy
    exact encodeKey_inj (hfree sx hsx) (hfree sy hsy) hxy
  · intro s hs
    obtain ⟨p, hp, f, hf, hsf⟩ := mem_specifiers_buildExportIndex hs
    obtain ⟨hfp, _⟩ := extractExports_fields hsf
    obtain ⟨hstart, hslash⟩ := hpath p hp f hf
    refine ⟨rfl, ?_, ?_⟩
    · rw [hfp]
      exact hstart
    · rw [hfp]
      exact hslash

/-- C3 witness: the hypotheses hold on the fixture's reference project and
the fixture's four discovered export ids are pairwise distinct. -/
theorem c3_witness :
    ((∀ p ∈ fixtureRefs, ∀ f ∈ p.files,
        strStartsWith f.relativePath "./" = true ∧ '\\' ∉ f.relativePath.data) ∧
      ((buildExportIndex fixtureRefs).specifiers.map specKey).Nodup) ∧
    ((buildExportIndex fixtureRefs).specifiers.map ExportSpecifier.id).Nodup :=
  ⟨⟨by decide, by decide⟩,
    (c3_export_ids_unique_and_formatted fixtureRefs (by decide) (by decide) (by decide)).1⟩

/-- C4: an import whose specifier names no configured project resolves to
unresolved rather than failing; in the fixture run, the import of
ForeignMixin from the unconfigured package never contributes any entry to
the result set (every result item belongs to the reference project and
none mentions ForeignMixin). -/
theorem c4_unknown_package_unresolved (projects : List Project) (specifierStr : String)
    (h : ∀ p ∈ projects, ¬(specifierStr = p.name) ∧
      strStartsWith specifierStr (p.name ++ "/") = false) :
    resolveSpecifier projects specifierStr = Resolution.unresolved ∧
    (fixtureRun.all fun item =>
      item.exportSpecifier.project == "exporting-ref-project") = true ∧
    (fixtureRun.all fun item =>
      !(item.exportSpecifier.name == "ForeignMixin")) = true := by
  refine ⟨?_, by decide, by decide⟩
  have hc : projects.filter
      (fun p => specifierStr = p.name || strStartsWith specifierStr (p.name ++ "/")) = [] := by
    rw [List.filter_eq_nil_iff]
    intro p hp
    simp only [Bool.or_eq_true, decide_eq_true_eq, not_or]
    exact ⟨(h p hp).1, by simp [(h p hp).2]⟩
  simp [resolveSpecifier, hc, pickLongestName]

/-- C4 witness: the fixture's reference project set does not know the
package name unknow-project. -/
theorem c4_witness :
    (∀ p ∈ fixtureRefs, ¬("unknow-project" = p.name) ∧
      strStartsWith "unknow-project" (p.name ++ "/") = false) ∧
    resolveSpecifier fixtureRefs "unknow-project" = Resolution.unresolved :=
  ⟨by decide, (c4_unknown_package_unresolved fixtureRefs "unknow-project" (by decide)).1⟩

/-- C5: the default-export sentinel name cannot collide with any legal
named export name, a named export is extracted under its own name, and
the fixture's export index holds exactly one specifier whose id is
[default]::./index.js::exporting-ref-project (the entry file's default
export, itself re-exporting a default import of another file of the same
project). -/
theorem c5_default_export_identity (n : String) (hn : isLegalIdentName n = true) :
    n ≠ defaultSentinel ∧
    (∀ pn fp sh, exportOfDecl pn fp (Declaration.namedExport n sh) =
      some ⟨n, fp, pn, isMixinShaped sh⟩) ∧
    (fixtureIndex.specifiers.filter
      (fun s => s.id = "[default]::./index.js::exporting-ref-project")).length = 1 := by
  refine ⟨?_, fun pn fp sh => rfl, by decide⟩
  intro heq
  rw [heq] at hn
  exact absurd hn (by decide)

/-- C5 witness: RefClass is a legal identifier name distinct from the
default sentinel, and the fixture's export index holds exactly one
specifier with the entry-file default id. -/
theorem c5_witness :
    isLegalIdentName "RefClass" = true ∧
    ("RefClass" ≠ defaultSentinel ∧
      (∀ pn fp sh, exportOfDecl pn fp (Declaration.namedExport "RefClass" sh) =
        some ⟨"RefClass", fp, pn, isMixinShaped sh⟩) ∧
      (fixtureIndex.specifiers.filter
        (fun s => s.id = "[default]::./index.js::exporting-ref-project")).length = 1) :=
  ⟨by decide, c5_default_export_identity "RefClass" (by decide)⟩

/-- C6: with no source changes, running the query with caching enabled —
once or twice in a row — produces output identical to the fresh
(cache-disabled) run, from any coherent starting cache; a disabled cache
behaves observably like an always-empty cache (both equal the fresh run),
never a partially stale one. -/
theorem c6_cache_idempotent (refs targets : List Project) (c0 c1 : CacheLayer)
    (h : Coherent c1) :
    (runMatchSubclassesCached false c1 refs targets).1 = runMatchSubclasses refs targets ∧
    (runMatchSubclassesCached false (runMatchSubclassesCached false c1 refs targets).2
        refs targets).1 = runMatchSubclasses refs targets ∧
    (runMatchSubclassesCached true c0 refs targets).1 = runMatchSubclasses refs targets ∧
    (runMatchSubclassesCached false emptyCache refs targets).1 =
      runMatchSubclasses refs targets := by
  have h1 := runCached_correct false c1 refs targets (Or.inr h)
  have hc2 : Coherent (runMatchSubclassesCached false c1 refs targets).2 :=
    h1.2.resolve_left (by simp)
  exact ⟨h1.1, (runCached_correct false _ refs targets (Or.inr hc2)).1,
    (runCached_correct true c0 refs targets (Or.inl rfl)).1,
    (runCached_correct false emptyCache refs targets (Or.inr coherent_empty)).1⟩

/-- C6 witness: starting from the empty cache, the enabled-cache fixture
run equals the disabled-cache fixture run. -/
theorem c6_witness :
    Coherent emptyCache ∧
    (runMatchSubclassesCached false emptyCache fixtureRefs fixtureTargets).1 =
      runMatchSubclasses fixtureRefs fixtureTargets :=
  ⟨by simp [Coherent, emptyCache],
    (c6_cache_idempotent fixtureRefs fixtureTargets emptyCache emptyCache
      (by simp [Coherent, emptyCache])).1⟩

/-- C7: every match entry of any run records as its identifier the name of
a class declared (with an extends clause) in a file of a target project
together with that file's relative path — the subclass, not the matched
base; in the fixture run no entry's identifier equals the matched export
specifier's name. -/
theorem c7_match_identifier_is_subclass (refs targets : List Project) :
    (∀ item ∈ runMatchSubclasses refs targets, ∀ g ∈ item.matchesPerProject,
      ∀ e ∈ g.files, EntryProvenance targets e) ∧
    (fixtureRun.all fun item => item.matchesPerProject.all fun g =>
      g.files.all fun e => !(e.identifier == item.exportSpecifier.name)) = true :=
  ⟨runInv_run refs targets, by decide⟩

/-- C7 witness: the fixture entry for ExtendRefDefault has provenance in
the fixture target project. -/
theorem c7_witness :
    EntryProvenance fixtureTargets
      ⟨"ExtendRefDefault", "./target-src/direct-imports.js", OverridesField.presentUndefined⟩ :=
  (c7_match_identifier_is_subclass fixtureRefs fixtureTargets).1
    ⟨⟨"[default]", "./index.js", "exporting-ref-project", false⟩,
      [⟨"importing-target-project",
        [⟨"ExtendRefDefault", "./target-src/direct-imports.js",
          OverridesField.presentUndefined⟩]⟩]⟩
    (by decide)
    ⟨"importing-target-project",
      [⟨"ExtendRefDefault", "./target-src/direct-imports.js",
        OverridesField.presentUndefined⟩]⟩
    (by decide)
    ⟨"ExtendRefDefault", "./target-src/direct-imports.js", OverridesField.presentUndefined⟩
    (by decide)

/-- C8: the shared result list is keyed by export specifier id (item ids
are pairwise distinct), matchesPerProject is grouped by target project
(group project names are pairwise distinct within every item), one
appended match either extends the existing item of its id or appends a new
item (respectively group) at the end — the list is append-only — and the
fixture run equals the expected result, whose match entries follow file
encounter order within the one target project group. -/
theorem c8_result_accumulation (refs targets : List Project) :
    ((runMatchSubclasses refs targets).map (fun item => item.exportSpecifier.id)).Nodup ∧
    (∀ item ∈ runMatchSubclasses refs targets,
      (item.matchesPerProject.map (fun g => g.project)).Nodup) ∧
    (∀ (acc : List QueryResultItem) (s : ExportSpecifier) (pj : String) (e : MatchEntry),
      (addMatch acc s pj e).map (fun item => item.exportSpecifier.id) =
        if acc.any (fun item => item.exportSpecifier.id = s.id) then
          acc.map (fun item => item.exportSpecifier.id)
        else acc.map (fun item => item.exportSpecifier.id) ++ [s.id]) ∧
    (∀ (mpp : List ProjectMatches) (pj : String) (e : MatchEntry),
      (addToProject mpp pj e).map (fun g => g.project) =
        if mpp.any (fun g => g.project = pj) then mpp.map (fun g => g.project)
        else mpp.map (fun g => g.project) ++ [pj]) ∧
    runMatchSubclasses fixtureRefs fixtureTargets = fixtureExpectedRun :=
  ⟨(shapeInv_run refs targets).1, (shapeInv_run refs targets).2,
    addMatch_ids, addToProject_proj, by decide⟩

/-- C8 witness: the project-group names of the fixture's RefClass item are
pairwise distinct. -/
theorem c8_witness :
    (([⟨"importing-target-project",
        [⟨"ExtendRefRenamedClass", "./target-src/indirect-imports.js",
          OverridesField.presentUndefined⟩,
         ⟨"ExtendRefClass", "./target-src/direct-imports.js",
          OverridesField.presentUndefined⟩,
         ⟨"ExtendRefClassWithMixin", "./target-src/direct-imports.js",
          OverridesField.presentUndefined⟩]⟩] : List ProjectMatches).map
      (fun g => g.project)).Nodup :=
  (c8_result_accumulation fixtureRefs fixtureTargets).2.1
    ⟨⟨"RefClass", "./ref-src/core.js", "exporting-ref-project", false⟩,
      [⟨"importing-target-project",
        [⟨"ExtendRefRenamedClass", "./target-src/indirect-imports.js",
          OverridesField.presentUndefined⟩,
         ⟨"ExtendRefClass", "./target-src/direct-imports.js",
          OverridesField.presentUndefined⟩,
         ⟨"ExtendRefClassWithMixin", "./target-src/direct-imports.js",
          OverridesField.presentUndefined⟩]⟩]⟩
    (by decide)

/-- C9: alias resolution is depth-bounded and total: whenever the alias
walk from a key reaches no physical export within the fixed maximum depth
— in particular on any cyclic alias chain or one exceeding that depth —
the lookup yields none (unresolved) instead of recursing unboundedly. -/
theorem c9_alias_resolution_depth_bounded (idx : ExportIndex) (n fp pj : String)
    (h : ∀ j, j ≤ maxAliasDepth → ((aliasWalk idx j (n, fp, pj)).all
        fun k => (lookupExport idx k.1 k.2.1 k.2.2).isNone) = true) :
    resolveAlias idx n fp pj = none :=
  resolveToCanonical_not_physical idx maxAliasDepth (n, fp, pj) h

set_option maxRecDepth 8000 in
/-- C9 witness: on the two-cycle alias index, the walk never reaches a
physical export and resolution of A at ./a.js yields none. -/
theorem c9_witness :
    (∀ j, j ≤ maxAliasDepth → ((aliasWalk cyclicAliasIndex j ("A", "./a.js", "p")).all
        fun k => (lookupExport cyclicAliasIndex k.1 k.2.1 k.2.2).isNone) = true) ∧
    resolveAlias cyclicAliasIndex "A" "./a.js" "p" = none :=
  ⟨by decide, c9_alias_resolution_depth_bounded cyclicAliasIndex "A" "./a.js" "p" (by decide)⟩

/-- C10: a subclass declaring no member overrides is recorded with the
memberOverrides field present and set to the undefined value — a value
distinct from the field being absent and from any (even empty) override
collection; every entry of the fixture run carries it. -/
theorem c10_member_overrides_present_undefined :
    mkOverridesField [] = OverridesField.presentUndefined ∧
    (OverridesField.presentUndefined == OverridesField.absent) = false ∧
    (∀ members : List String,
      (OverridesField.presentUndefined == OverridesField.overridesList members) = false) ∧
    (fixtureRun.all fun item => item.matchesPerProject.all fun g =>
      g.files.all fun e => e.memberOverrides == OverridesField.presentUndefined) = true :=
  ⟨rfl, rfl, fun _ => rfl, by decide⟩

end Providence
